import Mathlib

/-!
Shallow embedding of the text-analytics core of the browser_tabs repository
(src/ai-processor): tokenization and term-frequency modelling, the similarity
metrics (cosine, Jaccard, n-gram, combined), extractive summarization,
greedy content grouping, group merging, cross-recommendations, ranking and
agglomerative clustering.

Modelling conventions, applied throughout:

* Texts are lists of characters (`Str := List Char`).  The C++ code scans
  `char` bytes with the C locale; all reasoning here is at the character
  level, which agrees with the code on ASCII input.
* C++ `double`/`float` arithmetic is idealized as exact arithmetic:
  rational (`ℚ`) wherever the code computes a ratio of integers, real (`ℝ`)
  where a square root enters (cosine similarity) or where such values are
  mixed.  Casts between `double` and `float` are the identity.
* `std::to_string(idx)` applied to page indices is injective, and the code
  only ever compares the resulting id strings for equality, so member ids
  are modelled as the underlying natural numbers.
* Iteration order over `std::unordered_map`/`std::unordered_set` is
  unspecified in C++.  It is only observable in `FindCommonWords` (which
  feeds just the cosmetic group-name field); there the embedding fixes
  first-occurrence order.  Everywhere else (sums, set cardinalities) the
  result is order-independent and the embedding uses a deduplicated list.
* `std::sort` is modelled by `List.insertionSort`.  `std::sort` does not
  guarantee stability, so properties proved below never depend on the
  relative order of ties (the one spec clause that does depend on it is
  left unresolved, see `FindSimilarDocuments`).
* Cosine similarity is `dot / (sqrt magA * sqrt magB)` over doubles.  The
  embedding keeps the real-valued definition (`CalculateCosineSimilarity`)
  and, for executability of threshold tests, the exact rational square
  (`cosineSimSq`) together with bridge lemmas showing
  `CalculateCosineSimilarity a b = Real.sqrt (cosineSimSq a b)` and that
  the boolean threshold test `cosGeB` agrees with the real comparison.
-/

/-- Texts are modelled as lists of characters. -/
abbrev Str := List Char

/-- The stop-word set shared by `similarity_calculator.cpp` and
`content_analyzer.cpp` (identical literal in both files). -/
def STOP_WORDS : List Str := List.map String.data
  ["the", "a", "an", "and", "or", "but", "in", "on", "at", "to", "for",
   "of", "with", "by", "from", "as", "is", "was", "are", "were", "been",
   "be", "have", "has", "had", "do", "does", "did", "will", "would", "could",
   "should", "may", "might", "must", "shall", "can", "need", "dare", "ought",
   "used", "this", "that", "these", "those", "i", "you", "he", "she", "it",
   "we", "they", "what", "which", "who", "whom", "whose", "where", "when",
   "why", "how", "all", "each", "every", "both", "few", "more", "most",
   "other", "some", "such", "no", "nor", "not", "only", "own", "same",
   "so", "than", "too", "very", "just", "also", "now", "here", "there"]

/-- Membership test against the stop-word set. -/
def isStopWord (w : Str) : Bool := STOP_WORDS.contains w

/-- Emit the accumulated word if it passes the token filter
(`word.length() > 2 && STOP_WORDS.find(word) == STOP_WORDS.end()`),
as done both mid-scan and at the trailing flush of `Impl::Tokenize`. -/
def pushTok (acc : List Str) (w : Str) : List Str :=
  if 2 < w.length && !(isStopWord w) then acc ++ [w] else acc

/-- `SimilarityCalculator::Impl::Tokenize` (identical code in
`ContentAnalyzer::Impl::Tokenize`): scan characters, accumulate lower-cased
alphanumeric runs, flush a run at each non-alphanumeric character and at end
of input, keeping only runs of length > 2 that are not stop words. -/
def Tokenize (text : Str) : List Str :=
  let st := text.foldl
    (fun (st : Str × List Str) c =>
      if c.isAlphanum then (st.1 ++ [c.toLower], st.2)
      else ([], pushTok st.2 st.1))
    ([], [])
  pushTok st.2 st.1

/-- `Impl::CalculateTermFrequency`, as a total function from a term to its
normalized frequency: occurrence count divided by token count.  Terms absent
from the map have frequency 0, and for an empty token list the map is empty
(here: division by zero yields 0, matching the code's guard). -/
def CalculateTermFrequency (tokens : List Str) (w : Str) : ℚ :=
  (tokens.count w : ℚ) / (tokens.length : ℚ)

/-- The union of terms collected in `CalculateCosineSimilarity`
(`all_terms`, an `unordered_set` over both tf maps).  Iteration order of the
set is unspecified in C++ and only ever feeds order-independent sums; the
embedding uses the deduplicated concatenation. -/
def uniqueTerms (ta tb : List Str) : List Str := (ta ++ tb).dedup

/-- The `dot_product` accumulated over `all_terms` in
`CalculateCosineSimilarity`. -/
def dotProduct (ta tb : List Str) : ℚ :=
  ((uniqueTerms ta tb).map
    (fun w => CalculateTermFrequency ta w * CalculateTermFrequency tb w)).sum

/-- The squared magnitude (`magnitude_a` before the square root) accumulated
over the same term list in `CalculateCosineSimilarity`. -/
def magnitudeSqOver (terms : List Str) (ta : List Str) : ℚ :=
  (terms.map (fun w => (CalculateTermFrequency ta w) ^ 2)).sum

open Classical in
/-- `SimilarityCalculator::CalculateCosineSimilarity`: tokenize both texts,
return 0 if either token list is empty, otherwise dot product over the term
union divided by the product of the (square-root) magnitudes, with a second
0 guard if either magnitude is zero. -/
noncomputable def CalculateCosineSimilarity (a b : Str) : ℝ :=
  if Tokenize a = [] ∨ Tokenize b = [] then 0
  else
    if Real.sqrt (magnitudeSqOver (uniqueTerms (Tokenize a) (Tokenize b)) (Tokenize a)) = 0 ∨
        Real.sqrt (magnitudeSqOver (uniqueTerms (Tokenize a) (Tokenize b)) (Tokenize b)) = 0 then 0
    else (dotProduct (Tokenize a) (Tokenize b) : ℝ) /
      (Real.sqrt (magnitudeSqOver (uniqueTerms (Tokenize a) (Tokenize b)) (Tokenize a)) *
        Real.sqrt (magnitudeSqOver (uniqueTerms (Tokenize a) (Tokenize b)) (Tokenize b)))

/-- Exact rational square of the cosine similarity, following the same
branch structure as `CalculateCosineSimilarity`; used to make threshold
comparisons executable.  `cosineSim_eq_sqrt` proves the connection. -/
def cosineSimSq (a b : Str) : ℚ :=
  if Tokenize a = [] ∨ Tokenize b = [] then 0
  else
    if magnitudeSqOver (uniqueTerms (Tokenize a) (Tokenize b)) (Tokenize a) = 0 ∨
        magnitudeSqOver (uniqueTerms (Tokenize a) (Tokenize b)) (Tokenize b) = 0 then 0
    else (dotProduct (Tokenize a) (Tokenize b)) ^ 2 /
      (magnitudeSqOver (uniqueTerms (Tokenize a) (Tokenize b)) (Tokenize a) *
        magnitudeSqOver (uniqueTerms (Tokenize a) (Tokenize b)) (Tokenize b))

/-- Boolean form of the comparison `CalculateCosineSimilarity a b >= θ`
performed by the grouping code, expressed over the exact rational square;
`cosGeB_iff` proves it equivalent to the real comparison. -/
def cosGeB (a b : Str) (θ : ℚ) : Bool :=
  decide (θ ≤ 0) || decide (θ ^ 2 ≤ cosineSimSq a b)

/-- Term frequencies are nonnegative. -/
theorem tf_nonneg (tokens : List Str) (w : Str) :
    0 ≤ CalculateTermFrequency tokens w := by
  unfold CalculateTermFrequency
  positivity

/-- Dot products of term-frequency vectors are nonnegative. -/
theorem dotProduct_nonneg (ta tb : List Str) : 0 ≤ dotProduct ta tb := by
  unfold dotProduct
  apply List.sum_nonneg
  intro x hx
  simp only [List.mem_map] at hx
  obtain ⟨w, _, rfl⟩ := hx
  exact mul_nonneg (tf_nonneg ta w) (tf_nonneg tb w)

/-- Squared magnitudes are nonnegative. -/
theorem magnitudeSqOver_nonneg (terms ta : List Str) :
    0 ≤ magnitudeSqOver terms ta := by
  unfold magnitudeSqOver
  apply List.sum_nonneg
  intro x hx
  simp only [List.mem_map] at hx
  obtain ⟨w, _, rfl⟩ := hx
  positivity

/-- The squared cosine is nonnegative. -/
theorem cosineSimSq_nonneg (a b : Str) : 0 ≤ cosineSimSq a b := by
  unfold cosineSimSq
  split
  · exact le_refl 0
  · split
    · exact le_refl 0
    · have h1 := magnitudeSqOver_nonneg (uniqueTerms (Tokenize a) (Tokenize b)) (Tokenize a)
      have h2 := magnitudeSqOver_nonneg (uniqueTerms (Tokenize a) (Tokenize b)) (Tokenize b)
      positivity

/-- When the token list is nonempty, the squared magnitude over any term
list containing its head is strictly positive. -/
theorem magnitudeSqOver_pos (ta tb : List Str) (h : ta ≠ []) :
    0 < magnitudeSqOver (uniqueTerms ta tb) ta := by
  obtain ⟨w, tl, rfl⟩ := List.exists_cons_of_ne_nil h
  have hmem : w ∈ uniqueTerms (w :: tl) tb := by
    unfold uniqueTerms
    rw [List.mem_dedup]
    exact List.mem_append_left _ (List.mem_cons_self w tl)
  have hwpos : 0 < CalculateTermFrequency (w :: tl) w := by
    unfold CalculateTermFrequency
    apply div_pos
    · have : 0 < List.count w (w :: tl) := by
        rw [List.count_cons_self]
        exact Nat.succ_pos _
      exact_mod_cast this
    · have : 0 < (w :: tl).length := List.length_pos_of_ne_nil (by simp)
      exact_mod_cast this
  unfold magnitudeSqOver
  have hsq : 0 < (CalculateTermFrequency (w :: tl) w) ^ 2 := by positivity
  calc (0 : ℚ) < (CalculateTermFrequency (w :: tl) w) ^ 2 := hsq
    _ ≤ _ := by
        apply List.single_le_sum
        · intro x hx
          simp only [List.mem_map] at hx
          obtain ⟨v, _, rfl⟩ := hx
          positivity
        · exact List.mem_map_of_mem _ hmem

/-- Bridge: the real cosine similarity is the square root of the exact
rational square. -/
theorem cosineSim_eq_sqrt (a b : Str) :
    CalculateCosineSimilarity a b = Real.sqrt (cosineSimSq a b) := by
  unfold CalculateCosineSimilarity cosineSimSq
  by_cases hempty : Tokenize a = [] ∨ Tokenize b = []
  · rw [if_pos hempty, if_pos hempty, Rat.cast_zero, Real.sqrt_zero]
  · rw [if_neg hempty, if_neg hempty]
    push_neg at hempty
    obtain ⟨ha, hb⟩ := hempty
    have hA : 0 < magnitudeSqOver (uniqueTerms (Tokenize a) (Tokenize b)) (Tokenize a) :=
      magnitudeSqOver_pos _ _ ha
    have hBq : 0 < magnitudeSqOver (uniqueTerms (Tokenize b) (Tokenize a)) (Tokenize b) :=
      magnitudeSqOver_pos _ _ hb
    -- the two term unions have the same members, so the sums agree;
    -- easier: positivity over the union of a,b directly
    have hB : 0 < magnitudeSqOver (uniqueTerms (Tokenize a) (Tokenize b)) (Tokenize b) := by
      obtain ⟨w, tl, hw⟩ := List.exists_cons_of_ne_nil hb
      have hmem : w ∈ uniqueTerms (Tokenize a) (Tokenize b) := by
        unfold uniqueTerms
        rw [List.mem_dedup]
        apply List.mem_append_right
        rw [hw]
        exact List.mem_cons_self w tl
      have hwpos : 0 < CalculateTermFrequency (Tokenize b) w := by
        unfold CalculateTermFrequency
        apply div_pos
        · have : 0 < List.count w (Tokenize b) := by
            rw [hw, List.count_cons_self]
            exact Nat.succ_pos _
          exact_mod_cast this
        · have : 0 < (Tokenize b).length := List.length_pos_of_ne_nil hb
          exact_mod_cast this
      unfold magnitudeSqOver
      calc (0 : ℚ) < (CalculateTermFrequency (Tokenize b) w) ^ 2 := by positivity
        _ ≤ _ := by
            apply List.single_le_sum
            · intro x hx
              simp only [List.mem_map] at hx
              obtain ⟨v, _, rfl⟩ := hx
              positivity
            · exact List.mem_map_of_mem _ hmem
    have hArpos : (0 : ℝ) < (magnitudeSqOver (uniqueTerms (Tokenize a) (Tokenize b)) (Tokenize a) : ℝ) := by
      exact_mod_cast hA
    have hBrpos : (0 : ℝ) < (magnitudeSqOver (uniqueTerms (Tokenize a) (Tokenize b)) (Tokenize b) : ℝ) := by
      exact_mod_cast hB
    have hsa : Real.sqrt (magnitudeSqOver (uniqueTerms (Tokenize a) (Tokenize b)) (Tokenize a)) ≠ 0 := by
      rw [ne_eq, Real.sqrt_eq_zero hArpos.le]
      exact ne_of_gt hArpos
    have hsb : Real.sqrt (magnitudeSqOver (uniqueTerms (Tokenize a) (Tokenize b)) (Tokenize b)) ≠ 0 := by
      rw [ne_eq, Real.sqrt_eq_zero hBrpos.le]
      exact ne_of_gt hBrpos
    rw [if_neg (by push_neg; exact ⟨hsa, hsb⟩), if_neg (by push_neg; exact ⟨ne_of_gt hA, ne_of_gt hB⟩)]
    have hd : (0 : ℝ) ≤ (dotProduct (Tokenize a) (Tokenize b) : ℝ) := by
      exact_mod_cast dotProduct_nonneg _ _
    rw [Rat.cast_div, Rat.cast_pow, Rat.cast_mul]
    rw [Real.sqrt_div (by positivity), Real.sqrt_sq hd, Real.sqrt_mul hArpos.le]

/-- Bridge: the boolean threshold test agrees with the real comparison
`θ ≤ CalculateCosineSimilarity a b`. -/
theorem cosGeB_iff (a b : Str) (θ : ℚ) :
    cosGeB a b θ = true ↔ (θ : ℝ) ≤ CalculateCosineSimilarity a b := by
  rw [cosineSim_eq_sqrt]
  unfold cosGeB
  rw [Bool.or_eq_true, decide_eq_true_eq, decide_eq_true_eq]
  constructor
  · rintro (hle | hsq)
    · calc (θ : ℝ) ≤ 0 := by exact_mod_cast hle
        _ ≤ Real.sqrt (cosineSimSq a b) := Real.sqrt_nonneg _
    · rcases le_or_lt θ 0 with hle | hpos
      · calc (θ : ℝ) ≤ 0 := by exact_mod_cast hle
          _ ≤ Real.sqrt (cosineSimSq a b) := Real.sqrt_nonneg _
      · have hθr : (0 : ℝ) ≤ (θ : ℝ) := by exact_mod_cast hpos.le
        have hq : (0 : ℝ) ≤ (cosineSimSq a b : ℝ) := by
          exact_mod_cast cosineSimSq_nonneg a b
        rw [Real.le_sqrt hθr hq]
        calc ((θ : ℝ)) ^ 2 = ((θ ^ 2 : ℚ) : ℝ) := by push_cast; ring
          _ ≤ (cosineSimSq a b : ℝ) := by exact_mod_cast hsq
  · intro h
    rcases le_or_lt θ 0 with hle | hpos
    · exact Or.inl hle
    · right
      have hθr : (0 : ℝ) ≤ (θ : ℝ) := by exact_mod_cast hpos.le
      have hq : (0 : ℝ) ≤ (cosineSimSq a b : ℝ) := by
        exact_mod_cast cosineSimSq_nonneg a b
      rw [Real.le_sqrt hθr hq] at h
      have : ((θ ^ 2 : ℚ) : ℝ) ≤ (cosineSimSq a b : ℝ) := by
        calc ((θ ^ 2 : ℚ) : ℝ) = ((θ : ℝ)) ^ 2 := by push_cast; ring
          _ ≤ _ := h
      exact_mod_cast this

/-- C7: for every text t that tokenizes to at least one token,
CalculateCosineSimilarity(t, t) equals 1.0; and for every text u,
CalculateCosineSimilarity("", u) equals 0.0. -/
theorem C7_cosine_self_one_empty_zero (t u : Str) (h : Tokenize t ≠ []) :
    CalculateCosineSimilarity t t = 1 ∧ CalculateCosineSimilarity [] u = 0 := by
  constructor
  · unfold CalculateCosineSimilarity
    rw [if_neg (by push_neg; exact ⟨h, h⟩)]
    have hA : 0 < magnitudeSqOver (uniqueTerms (Tokenize t) (Tokenize t)) (Tokenize t) :=
      magnitudeSqOver_pos _ _ h
    have hApos : (0 : ℝ) < (magnitudeSqOver (uniqueTerms (Tokenize t) (Tokenize t)) (Tokenize t) : ℝ) := by
      exact_mod_cast hA
    have hs : Real.sqrt (magnitudeSqOver (uniqueTerms (Tokenize t) (Tokenize t)) (Tokenize t)) ≠ 0 := by
      rw [ne_eq, Real.sqrt_eq_zero hApos.le]
      exact ne_of_gt hApos
    rw [if_neg (by push_neg; exact ⟨hs, hs⟩)]
    have hdot : dotProduct (Tokenize t) (Tokenize t)
        = magnitudeSqOver (uniqueTerms (Tokenize t) (Tokenize t)) (Tokenize t) := by
      unfold dotProduct magnitudeSqOver
      congr 1
      apply List.map_congr_left
      intro w _
      ring
    rw [hdot, Real.mul_self_sqrt hApos.le]
    exact div_self (ne_of_gt hApos)
  · unfold CalculateCosineSimilarity
    rw [if_pos]
    left
    rfl

/-- Witness for C7 at concrete inputs. -/
theorem C7_witness :
    Tokenize ("cats".data) ≠ [] ∧
      (CalculateCosineSimilarity "cats".data "cats".data = 1 ∧
        CalculateCosineSimilarity [] "dog".data = 0) :=
  ⟨by decide, C7_cosine_self_one_empty_zero "cats".data "dog".data (by decide)⟩

/-- Whitespace set used by the trimming in `SplitIntoSentences`
(`find_first_not_of(" \t\n\r")`). -/
def isTrimWs (c : Char) : Bool := c = ' ' || c = '\t' || c = '\n' || c = '\r'

/-- Separator set used by the abbreviation guard
(`find_last_of(" \t\n", ...)`; note: no carriage return here). -/
def isWordSep (c : Char) : Bool := c = ' ' || c = '\t' || c = '\n'

/-- Two-sided trim over " \t\n\r", as done by the
`find_first_not_of`/`find_last_not_of` pair in `SplitIntoSentences`. -/
def trimWs (s : Str) : Str :=
  ((s.dropWhile isTrimWs).reverse.dropWhile isTrimWs).reverse

/-- Position of the last separator among the candidate's characters other
than its final one (`find_last_of(" \t\n", length - 2)`); `none` models
`npos`.  The final character of the candidate is always the sentence-ending
punctuation just appended, never a separator, so restricting the search to
`dropLast` agrees with the code for every reachable candidate. -/
def lastSepIdx (cur : Str) : Option ℕ :=
  ((cur.dropLast.enum.filter (fun p => isWordSep p.2)).map Prod.fst).getLast?

/-- Abbreviation guard of `SplitIntoSentences`: a period that is not the
first character of the text, whose last whitespace-delimited word (including
the period itself) has length at most 3, does not end a sentence. -/
def isAbbrev (i : ℕ) (c : Char) (cur : Str) : Bool :=
  c = '.' && decide (0 < i) &&
    (match lastSepIdx cur with
     | some p => decide (cur.length - (p + 1) ≤ 3)
     | none => false)

/-- Emission step of `SplitIntoSentences`: trim the candidate and append it
to the accumulator exactly when the trimmed length exceeds 10. -/
def emitSentence (acc : List Str) (cur : Str) : List Str :=
  if 10 < (trimWs cur).length then acc ++ [trimWs cur] else acc

/-- One character step of `SplitIntoSentences`: extend the current
candidate; on `.`/`!`/`?` that is not an abbreviation, emit the candidate
and reset. -/
def sentStep (st : Str × List Str) (p : ℕ × Char) : Str × List Str :=
  if p.2 = '.' || p.2 = '!' || p.2 = '?' then
    (if isAbbrev p.1 p.2 (st.1 ++ [p.2]) then (st.1 ++ [p.2], st.2)
     else ([], emitSentence st.2 (st.1 ++ [p.2])))
  else (st.1 ++ [p.2], st.2)

/-- `ContentAnalyzer::Impl::SplitIntoSentences`: scan the text, breaking at
`.`/`!`/`?` (subject to the abbreviation guard), trimming each candidate and
dropping candidates whose trimmed length is not greater than 10; a trailing
nonempty candidate is flushed through the same emission step. -/
def SplitIntoSentences (text : Str) : List Str :=
  if (text.enum.foldl sentStep ([], [])).1 ≠ [] then
    emitSentence (text.enum.foldl sentStep ([], [])).2
      (text.enum.foldl sentStep ([], [])).1
  else (text.enum.foldl sentStep ([], [])).2

/-- Every sentence ever present in an emission accumulator either was
already there or is a trimmed candidate of length greater than 10. -/
theorem emitSentence_mem (acc : List Str) (cur : Str) (s : Str)
    (h : s ∈ emitSentence acc cur) :
    s ∈ acc ∨ (s = trimWs cur ∧ 10 < (trimWs cur).length) := by
  unfold emitSentence at h
  split at h
  · rcases List.mem_append.mp h with h1 | h1
    · exact Or.inl h1
    · right
      rw [List.mem_singleton] at h1
      exact ⟨h1, by assumption⟩
  · exact Or.inl h

/-- Invariant of the sentence-splitting fold: every accumulated sentence has
length greater than 10. -/
theorem sentStep_fold_inv (l : List (ℕ × Char)) :
    ∀ st : Str × List Str, (∀ s ∈ st.2, 10 < s.length) →
      ∀ s ∈ (l.foldl sentStep st).2, 10 < s.length := by
  induction l with
  | nil => intro st h s hs; exact h s hs
  | cons p t ih =>
      intro st h s hs
      rw [List.foldl_cons] at hs
      refine ih (sentStep st p) ?_ s hs
      intro q hq
      unfold sentStep at hq
      split at hq
      · split at hq
        · exact h q hq
        · rcases emitSentence_mem _ _ _ hq with h1 | ⟨h1, h2⟩
          · exact h q h1
          · rw [h1]; exact h2
      · exact h q hq

/-- C8 (amended): in the sentence splitting shared by summary generation and
key-point extraction, a candidate sentence is emitted exactly when its
trimmed length is at least 11 characters (in particular every emitted
sentence has trimmed length at least 11); trimmed candidates of length 10 or
less, including length exactly 10, are dropped. -/
theorem C8_sentence_length_filter :
    (∀ text : Str, ∀ s ∈ SplitIntoSentences text, 10 < s.length) ∧
    (∀ (acc : List Str) (cur : Str), 10 < (trimWs cur).length →
        emitSentence acc cur = acc ++ [trimWs cur]) ∧
    (∀ (acc : List Str) (cur : Str), (trimWs cur).length ≤ 10 →
        emitSentence acc cur = acc) := by
  refine ⟨?_, ?_, ?_⟩
  · intro text s hs
    unfold SplitIntoSentences at hs
    split at hs
    · rcases emitSentence_mem _ _ _ hs with h1 | ⟨h1, h2⟩
      · exact sentStep_fold_inv text.enum ([], []) (by intro q hq; cases hq) s h1
      · rw [h1]; exact h2
    · exact sentStep_fold_inv text.enum ([], []) (by intro q hq; cases hq) s hs
  · intro acc cur h
    unfold emitSentence
    rw [if_pos h]
  · intro acc cur h
    unfold emitSentence
    rw [if_neg (by omega)]

/-- Counterexample for C8 as stated: the candidate "abcdefghi." has trimmed
length exactly 10 but is dropped, so the split of the whole text is empty
even though the claim requires the sentence to be emitted. -/
theorem C8_counterexample :
    ("abcdefghi.".data).length = 10 ∧
    trimWs ("abcdefghi.".data) = "abcdefghi.".data ∧
    emitSentence [] ("abcdefghi.".data) = [] ∧
    SplitIntoSentences ("abcdefghi.".data) = [] := by decide

/-- Witness for C8 (amended) at concrete inputs. -/
theorem C8_witness :
    (("This is a sufficiently long sentence.".data ∈
        SplitIntoSentences "This is a sufficiently long sentence. ok".data) ∧
      10 < ("This is a sufficiently long sentence.".data).length) ∧
    (10 < (trimWs " abcdefghijk ".data).length ∧
      emitSentence [] " abcdefghijk ".data = [trimWs " abcdefghijk ".data]) ∧
    ((trimWs "abc".data).length ≤ 10 ∧ emitSentence [] "abc".data = []) :=
  ⟨⟨by decide,
    C8_sentence_length_filter.1 "This is a sufficiently long sentence. ok".data
      "This is a sufficiently long sentence.".data (by decide)⟩,
   ⟨by decide, C8_sentence_length_filter.2.1 [] " abcdefghijk ".data (by decide)⟩,
   ⟨by decide, C8_sentence_length_filter.2.2 [] "abc".data (by decide)⟩⟩

/-- `Impl::CalculateWordFrequency` as a total function: raw occurrence
count of a word in the token list. -/
def CalculateWordFrequency (tokens : List Str) (w : Str) : ℕ := tokens.count w

/-- Maximum raw frequency over the word-frequency map of `tokens` (0 when
there are no tokens), as computed by the `max_freq` loop of
`GenerateSummary` and `ExtractKeyPoints`. -/
def maxFreq (tokens : List Str) : ℕ :=
  (tokens.map (fun w => tokens.count w)).foldr max 0

/-- `Impl::ScoreSentence`: 0 for a sentence with no tokens, otherwise the
sum over the sentence's tokens of frequency/max-frequency, divided by the
token count, times the length-preference factor (0.5 below 5 tokens, 0.7
above 30, else 1).  A token absent from the frequency map contributes 0. -/
def ScoreSentence (sentence : Str) (tokens : List Str) (mf : ℕ) : ℚ :=
  if Tokenize sentence = [] then 0
  else
    (((Tokenize sentence).map
        (fun w => (tokens.count w : ℚ) / (mf : ℚ))).sum /
      ((Tokenize sentence).length : ℚ)) *
    (if (Tokenize sentence).length < 5 then 1 / 2
     else if 30 < (Tokenize sentence).length then 7 / 10 else 1)

/-- Final score of sentence `i` inside `GenerateSummary`: the sentence
score over the whole-text frequency model (with `max_freq` floored at 1),
boosted by 1.2 for the first three sentences. -/
def sentenceScoreAt (text : Str) (i : ℕ) : ℚ :=
  ScoreSentence ((SplitIntoSentences text).getD i []) (Tokenize text)
      (if maxFreq (Tokenize text) = 0 then 1 else maxFreq (Tokenize text)) *
    (if i < 3 then 6 / 5 else 1)

/-- The `scored_sentences` vector of `GenerateSummary`: one (score, index)
pair per sentence, in sentence order. -/
def scoredSentences (text : Str) : List (ℚ × ℕ) :=
  (List.range (SplitIntoSentences text).length).map
    (fun i => (sentenceScoreAt text i, i))

/-- The score-descending sort of `scored_sentences` (`std::sort` with
comparator `a.first > b.first`; tie order is unspecified in C++ and the
properties proved below do not depend on it). -/
def sortedScored (text : Str) : List (ℚ × ℕ) :=
  List.insertionSort (fun a b => b.1 ≤ a.1) (scoredSentences text)

/-- The `selected_indices` of `GenerateSummary`: indices of the top
`min k (number of sentences)` pairs by score, re-sorted ascending. -/
def selectedIndices (text : Str) (k : ℕ) : List ℕ :=
  List.insertionSort (fun a b => a ≤ b)
    (((sortedScored text).take (min k (sortedScored text).length)).map Prod.snd)

/-- `ContentAnalyzer::GenerateSummary`: empty text yields ""; a text with
no extracted sentences yields the text itself (up to 200 characters) or its
first 200 characters followed by "..."; when at most `max_sentences`
sentences exist they are joined by single spaces in order; otherwise the
top sentences by score are selected and joined in source order. -/
def GenerateSummary (text : Str) (maxSentences : ℕ) : Str :=
  if text = [] then []
  else if SplitIntoSentences text = [] then
    (if text.length ≤ 200 then text else text.take 200 ++ "...".data)
  else if (SplitIntoSentences text).length ≤ maxSentences then
    List.intercalate [' '] (SplitIntoSentences text)
  else
    List.intercalate [' ']
      ((selectedIndices text maxSentences).map
        (fun i => (SplitIntoSentences text).getD i []))

/-- C10: for every non-empty text from which sentence splitting yields no
sentences, GenerateSummary ignores max_sentences and returns the whole text
when its length is at most 200 characters, and otherwise returns the first
200 characters of the text followed by "...". -/
theorem C10_truncation_fallback (text : Str) (k : ℕ) (h1 : text ≠ [])
    (h2 : SplitIntoSentences text = []) :
    (text.length ≤ 200 → GenerateSummary text k = text) ∧
    (200 < text.length → GenerateSummary text k = text.take 200 ++ "...".data) := by
  constructor
  · intro hlen
    unfold GenerateSummary
    rw [if_neg h1, if_pos h2, if_pos hlen]
  · intro hlen
    unfold GenerateSummary
    rw [if_neg h1, if_pos h2, if_neg (by omega)]

set_option maxRecDepth 40000 in
/-- Witness for C10 at concrete inputs, covering both length branches. -/
theorem C10_witness :
    ("tiny".data ≠ [] ∧ SplitIntoSentences "tiny".data = [] ∧
      ("tiny".data).length ≤ 200 ∧ GenerateSummary "tiny".data 3 = "tiny".data) ∧
    (List.replicate 250 ' ' ≠ ([] : Str) ∧
      SplitIntoSentences (List.replicate 250 ' ') = [] ∧
      200 < (List.replicate 250 ' ' : Str).length ∧
      GenerateSummary (List.replicate 250 ' ') 3 =
        (List.replicate 250 ' ' : Str).take 200 ++ "...".data) :=
  ⟨⟨by decide, by decide, by decide,
    (C10_truncation_fallback "tiny".data 3 (by decide) (by decide)).1 (by decide)⟩,
   ⟨by decide, by decide, by decide,
    (C10_truncation_fallback (List.replicate 250 ' ') 3 (by decide) (by decide)).2
      (by decide)⟩⟩

instance : IsTotal (ℚ × ℕ) (fun a b => b.1 ≤ a.1) :=
  ⟨fun a b => le_total b.1 a.1⟩

instance : IsTrans (ℚ × ℕ) (fun a b => b.1 ≤ a.1) :=
  ⟨fun _ _ _ hab hbc => le_trans hbc hab⟩

/-- The index components of `scored_sentences` are exactly the sentence
indices in order. -/
theorem scored_map_snd (text : Str) :
    (scoredSentences text).map Prod.snd =
      List.range (SplitIntoSentences text).length := by
  unfold scoredSentences
  rw [List.map_map]
  exact List.map_id _

/-- Every pair of `scored_sentences` is the score of its own index. -/
theorem mem_scored_eq (text : Str) (p : ℚ × ℕ)
    (hp : p ∈ scoredSentences text) : p = (sentenceScoreAt text p.2, p.2) := by
  unfold scoredSentences at hp
  rw [List.mem_map] at hp
  obtain ⟨i, _, rfl⟩ := hp
  rfl

/-- C3 (amended): when at least one sentence is extracted, GenerateSummary
returns, for a sentence count at most k, all sentences joined by single
spaces in source order; and for more than k sentences, a strictly
increasing list of k sentence indices whose scores dominate every
unselected sentence, joined in source order.  (When no sentences are
extracted the output is the possibly-truncated raw text instead, see C10.) -/
theorem C3_summary_order (text : Str) (k : ℕ)
    (hne : SplitIntoSentences text ≠ []) :
    ((SplitIntoSentences text).length ≤ k →
        GenerateSummary text k = List.intercalate [' '] (SplitIntoSentences text)) ∧
    (k < (SplitIntoSentences text).length →
        ∃ idxs : List ℕ,
          List.Sorted (· < ·) idxs ∧
          idxs.length = k ∧
          (∀ i ∈ idxs, i < (SplitIntoSentences text).length) ∧
          (∀ a ∈ idxs, ∀ b, b < (SplitIntoSentences text).length → b ∉ idxs →
              sentenceScoreAt text b ≤ sentenceScoreAt text a) ∧
          GenerateSummary text k =
            List.intercalate [' ']
              (idxs.map (fun i => (SplitIntoSentences text).getD i []))) := by
  have htext : text ≠ [] := by
    rintro rfl
    exact hne rfl
  constructor
  · intro hlen
    unfold GenerateSummary
    rw [if_neg htext, if_neg hne, if_pos hlen]
  · intro hk
    -- abbreviations
    set n := (SplitIntoSentences text).length with hn
    have hSperm : (sortedScored text).Perm (scoredSentences text) :=
      List.perm_insertionSort _ _
    have hSlen : (sortedScored text).length = n := by
      rw [hSperm.length_eq]
      unfold scoredSentences
      rw [List.length_map, List.length_range]
    have hm : min k (sortedScored text).length = k := by
      rw [hSlen]
      omega
    have hmapsnd_perm :
        ((sortedScored text).map Prod.snd).Perm (List.range n) := by
      rw [← scored_map_snd text]
      exact hSperm.map Prod.snd
    have hmapsnd_nodup : ((sortedScored text).map Prod.snd).Nodup :=
      (hmapsnd_perm.nodup_iff).mpr (List.nodup_range n)
    have htake_eq :
        ((sortedScored text).take (min k (sortedScored text).length)).map Prod.snd =
          ((sortedScored text).map Prod.snd).take k := by
      rw [List.map_take, hm]
    have hsel_perm :
        (selectedIndices text k).Perm
          (((sortedScored text).take (min k (sortedScored text).length)).map Prod.snd) :=
      List.perm_insertionSort _ _
    have htakemap_nodup :
        (((sortedScored text).take (min k (sortedScored text).length)).map Prod.snd).Nodup := by
      rw [htake_eq]
      exact hmapsnd_nodup.sublist (List.take_sublist _ _)
    have hsel_nodup : (selectedIndices text k).Nodup :=
      (hsel_perm.nodup_iff).mpr htakemap_nodup
    have hsel_sorted_le : List.Sorted (· ≤ ·) (selectedIndices text k) := by
      unfold selectedIndices
      exact List.sorted_insertionSort _ _
    have hsel_sorted : List.Sorted (· < ·) (selectedIndices text k) :=
      hsel_sorted_le.lt_of_le hsel_nodup
    have hsel_len : (selectedIndices text k).length = k := by
      rw [hsel_perm.length_eq, List.length_map, List.length_take, hm]
      rw [hSlen]
      omega
    have hmem_of_sel : ∀ x ∈ selectedIndices text k,
        x ∈ ((sortedScored text).map Prod.snd).take k := by
      intro x hx
      rw [← htake_eq]
      exact hsel_perm.subset hx
    have hsel_bound : ∀ i ∈ selectedIndices text k, i < n := by
      intro i hi
      have h1 : i ∈ (sortedScored text).map Prod.snd :=
        (List.take_sublist _ _).subset (hmem_of_sel i hi)
      have h2 : i ∈ List.range n := hmapsnd_perm.subset h1
      exact List.mem_range.mp h2
    refine ⟨selectedIndices text k, hsel_sorted, hsel_len, hsel_bound, ?_, ?_⟩
    · -- score domination
      intro a ha b hb hbnot
      -- the pair selected for a
      have haT : a ∈ ((sortedScored text).take (min k (sortedScored text).length)).map Prod.snd :=
        hsel_perm.subset ha
      rw [List.mem_map] at haT
      obtain ⟨pa, hpaT, hpa2⟩ := haT
      have hpaS : pa ∈ sortedScored text := (List.take_sublist _ _).subset hpaT
      have hpa_eq : pa = (sentenceScoreAt text pa.2, pa.2) :=
        mem_scored_eq text pa (hSperm.subset hpaS)
      -- the pair of b
      have hpbmem : (sentenceScoreAt text b, b) ∈ scoredSentences text := by
        unfold scoredSentences
        rw [List.mem_map]
        exact ⟨b, List.mem_range.mpr hb, rfl⟩
      have hpbS : (sentenceScoreAt text b, b) ∈ sortedScored text :=
        hSperm.symm.subset hpbmem
      have hsplit : (sortedScored text).take (min k (sortedScored text).length) ++
          (sortedScored text).drop (min k (sortedScored text).length) = sortedScored text :=
        List.take_append_drop _ _
      have hpbD : (sentenceScoreAt text b, b) ∈
          (sortedScored text).drop (min k (sortedScored text).length) := by
        rcases List.mem_append.mp (by rw [hsplit]; exact hpbS) with hmem | hmem
        · exfalso
          apply hbnot
          have : b ∈ ((sortedScored text).take (min k (sortedScored text).length)).map Prod.snd :=
            List.mem_map_of_mem Prod.snd hmem
          exact hsel_perm.symm.subset this
        · exact hmem
      have hsorted : List.Pairwise (fun a b : ℚ × ℕ => b.1 ≤ a.1) (sortedScored text) := by
        unfold sortedScored
        exact List.sorted_insertionSort _ _
      have hpw := (List.pairwise_append.mp (by rw [hsplit]; exact hsorted)).2.2
      have := hpw pa hpaT (sentenceScoreAt text b, b) hpbD
      calc sentenceScoreAt text b ≤ pa.1 := this
        _ = sentenceScoreAt text a := by rw [hpa_eq]; simp only; rw [hpa2]
    · unfold GenerateSummary
      rw [if_neg htext, if_neg hne, if_neg (by omega)]

/-- Counterexample for C3 as stated: the text "short" extracts zero
sentences (zero is at most k = 3), yet GenerateSummary returns the raw text
rather than the empty join of all (zero) extracted sentences. -/
theorem C3_counterexample :
    (SplitIntoSentences "short".data).length ≤ 3 ∧
    GenerateSummary "short".data 3 ≠
      List.intercalate [' '] (SplitIntoSentences "short".data) := by
  constructor
  · decide
  · decide

set_option maxRecDepth 40000 in
/-- Witness for C3 (amended) covering both the identity branch and the
selection branch at concrete inputs. -/
theorem C3_witness :
    (SplitIntoSentences "This sentence is long enough for the test.".data ≠ [] ∧
      (SplitIntoSentences "This sentence is long enough for the test.".data).length ≤ 5 ∧
      GenerateSummary "This sentence is long enough for the test.".data 5 =
        List.intercalate [' ']
          (SplitIntoSentences "This sentence is long enough for the test.".data)) ∧
    (SplitIntoSentences
        "The quick brown fox jumps over the lazy dog today. A second sentence about dogs appears here.".data ≠ [] ∧
      1 < (SplitIntoSentences
        "The quick brown fox jumps over the lazy dog today. A second sentence about dogs appears here.".data).length ∧
      ∃ idxs : List ℕ,
        List.Sorted (· < ·) idxs ∧
        idxs.length = 1 ∧
        (∀ i ∈ idxs, i < (SplitIntoSentences
          "The quick brown fox jumps over the lazy dog today. A second sentence about dogs appears here.".data).length) ∧
        (∀ a ∈ idxs, ∀ b, b < (SplitIntoSentences
            "The quick brown fox jumps over the lazy dog today. A second sentence about dogs appears here.".data).length →
            b ∉ idxs →
            sentenceScoreAt
                "The quick brown fox jumps over the lazy dog today. A second sentence about dogs appears here.".data b ≤
              sentenceScoreAt
                "The quick brown fox jumps over the lazy dog today. A second sentence about dogs appears here.".data a) ∧
        GenerateSummary
            "The quick brown fox jumps over the lazy dog today. A second sentence about dogs appears here.".data 1 =
          List.intercalate [' ']
            (idxs.map (fun i =>
              (SplitIntoSentences
                "The quick brown fox jumps over the lazy dog today. A second sentence about dogs appears here.".data).getD i []))) :=
  ⟨⟨by decide, by decide,
    (C3_summary_order "This sentence is long enough for the test.".data 5
      (by decide)).1 (by decide)⟩,
   ⟨by decide, by decide,
    (C3_summary_order
      "The quick brown fox jumps over the lazy dog today. A second sentence about dogs appears here.".data 1
      (by decide)).2 (by decide)⟩⟩

/-- The `PageContent` record consumed by the grouping code: plain text,
title, ordered keyword list, ordered link list. -/
structure PageContent where
  text : Str
  title : Str
  keywords : List Str
  links : List Str
deriving DecidableEq, Inhabited

/-- `GroupSuggestion`: name, description, ordered member page ids (the code
stores `std::to_string(idx)`; ids are modelled as the underlying page
indices, see the header comment), and a similarity score (a `float` in the
code, idealized as a real number). -/
structure GroupSuggestion where
  group_name : Str
  description : Str
  page_ids : List ℕ
  similarity_score : ℝ

instance : Inhabited GroupSuggestion := ⟨⟨[], [], [], 0⟩⟩

/-- Overlap ratio between two member-id lists in `MergeGroups`:
intersection size over union size of the two id sets (0 when the union is
empty).  Set sizes are taken over deduplicated lists, matching the
`unordered_set` construction. -/
def overlapRatio (a b : List ℕ) : ℚ :=
  if 0 < a.dedup.length + b.dedup.length -
      (a.dedup.filter (fun x => b.contains x)).length then
    ((a.dedup.filter (fun x => b.contains x)).length : ℚ) /
      ((a.dedup.length + b.dedup.length -
        (a.dedup.filter (fun x => b.contains x)).length : ℕ) : ℚ)
  else 0

open Classical in
/-- One merge of `MergeGroups`: append those ids of `h` that are absent
from the membership snapshot of `g` (so internal duplicates of `h` are kept
by the code, faithfully preserved here), and take the minimum of the two
scores. -/
noncomputable def mergeInto (g h : GroupSuggestion) : GroupSuggestion :=
  { g with
    page_ids := g.page_ids ++ h.page_ids.filter (fun x => !(g.page_ids.contains x)),
    similarity_score := min g.similarity_score h.similarity_score }

/-- The inner `j` scan of `MergeGroups`: walk the remaining groups in
order, folding into the accumulator every group whose overlap with the
current (growing) merged group reaches the threshold, and keeping the
others for later passes. -/
noncomputable def absorb (θ : ℚ) :
    GroupSuggestion → List GroupSuggestion → GroupSuggestion × List GroupSuggestion
  | g, [] => (g, [])
  | g, h :: t =>
    if θ ≤ overlapRatio g.page_ids h.page_ids then absorb θ (mergeInto g h) t
    else ((absorb θ g t).1, h :: (absorb θ g t).2)

/-- The groups left unabsorbed are a sublist-sized remainder. -/
theorem absorb_snd_length (θ : ℚ) (g : GroupSuggestion)
    (l : List GroupSuggestion) : (absorb θ g l).2.length ≤ l.length := by
  induction l generalizing g with
  | nil => simp [absorb]
  | cons h t ih =>
      unfold absorb
      split
      · exact le_trans (ih _) (Nat.le_succ _)
      · simpa using ih g

/-- The outer `i` loop of `MergeGroups` over the not-yet-processed groups. -/
noncomputable def mergeLoop (θ : ℚ) : List GroupSuggestion → List GroupSuggestion
  | [] => []
  | g :: rest => (absorb θ g rest).1 :: mergeLoop θ (absorb θ g rest).2
termination_by l => l.length
decreasing_by
  simp only [List.length_cons]
  exact Nat.lt_succ_of_le (absorb_snd_length θ g rest)

/-- `GroupSuggester::MergeGroups`: lists of at most one group pass through;
otherwise each group, scanning in order and merged at most once, absorbs
every later unprocessed group whose member-id-set overlap ratio reaches the
merge threshold. -/
noncomputable def MergeGroups (groups : List GroupSuggestion) (θ : ℚ) :
    List GroupSuggestion :=
  if groups.length ≤ 1 then groups else mergeLoop θ groups

/-- C4: two groups with member sets {1,2,3} and {2,3,4} merge at threshold
0.5 (overlap 2/4) into {1,2,3,4} with the minimum of the two scores, and
stay separate and unchanged at threshold 0.6; names, descriptions and
scores are arbitrary. -/
theorem C4_merge_overlap (n1 d1 n2 d2 : Str) (s1 s2 : ℝ) :
    MergeGroups [⟨n1, d1, [1, 2, 3], s1⟩, ⟨n2, d2, [2, 3, 4], s2⟩] (1 / 2) =
      [⟨n1, d1, [1, 2, 3, 4], min s1 s2⟩] ∧
    MergeGroups [⟨n1, d1, [1, 2, 3], s1⟩, ⟨n2, d2, [2, 3, 4], s2⟩] (6 / 10) =
      [⟨n1, d1, [1, 2, 3], s1⟩, ⟨n2, d2, [2, 3, 4], s2⟩] := by
  have hov : overlapRatio [1, 2, 3] [2, 3, 4] = 1 / 2 := by
    unfold overlapRatio
    have h1 : (([1, 2, 3] : List ℕ).dedup.filter
        (fun x => List.contains [2, 3, 4] x)).length = 2 := by decide
    have h2 : ([1, 2, 3] : List ℕ).dedup.length = 3 := by decide
    have h3 : ([2, 3, 4] : List ℕ).dedup.length = 3 := by decide
    rw [h1, h2, h3]
    norm_num
  have hfil : ([2, 3, 4] : List ℕ).filter
      (fun x => !(List.contains [1, 2, 3] x)) = [4] := by decide
  constructor
  · unfold MergeGroups
    rw [if_neg (by simp)]
    have habs : absorb (1 / 2 : ℚ) ⟨n1, d1, [1, 2, 3], s1⟩ [⟨n2, d2, [2, 3, 4], s2⟩] =
        (⟨n1, d1, [1, 2, 3, 4], min s1 s2⟩, []) := by
      unfold absorb
      rw [hov, if_pos (le_refl _)]
      unfold absorb mergeInto
      simp only
      rw [hfil]
      rfl
    rw [mergeLoop, habs]
    rw [mergeLoop]
  · unfold MergeGroups
    rw [if_neg (by simp)]
    have habs : absorb (6 / 10 : ℚ) ⟨n1, d1, [1, 2, 3], s1⟩ [⟨n2, d2, [2, 3, 4], s2⟩] =
        (⟨n1, d1, [1, 2, 3], s1⟩, [⟨n2, d2, [2, 3, 4], s2⟩]) := by
      unfold absorb
      rw [hov, if_neg (by norm_num)]
      unfold absorb
      simp only
    rw [mergeLoop, habs]
    simp only
    rw [mergeLoop, absorb]
    rw [mergeLoop]

/-- Evaluation helper: a sum of products of ratios with fixed denominators
equals the ratio of the natural-number sum of products; holds also for zero
denominators under the division-by-zero convention. -/
theorem sum_div_eval (l : List Str) (f g : Str → ℕ) (La Lb : ℚ) :
    (l.map (fun w => ((f w : ℚ) / La) * ((g w : ℚ) / Lb))).sum =
      (((l.map (fun w => f w * g w)).sum : ℕ) : ℚ) / (La * Lb) := by
  induction l with
  | nil => simp
  | cons a t ih =>
      simp only [List.map_cons, List.sum_cons, ih]
      push_cast
      rw [div_mul_div_comm, div_add_div_same]

/-- Word-collecting step of `FindCommonWords`: words longer than 3
characters, counted once per document (`seen_in_doc`), collected here in
first-occurrence order. -/
def pushCW (seen : List Str) (w : Str) : List Str :=
  if 3 < w.length && !(seen.contains w) then seen ++ [w] else seen

/-- The distinct words of length > 3 of one text, lower-cased, in
first-occurrence order: the per-document contribution of
`Impl::FindCommonWords`. -/
def docWords (t : Str) : List Str :=
  pushCW
    (t.foldl
      (fun (st : Str × List Str) c =>
        if c.isAlphanum then (st.1 ++ [c.toLower], st.2)
        else ([], pushCW st.2 st.1))
      ([], [])).2
    (t.foldl
      (fun (st : Str × List Str) c =>
        if c.isAlphanum then (st.1 ++ [c.toLower], st.2)
        else ([], pushCW st.2 st.1))
      ([], [])).1

/-- Bump the count of a word in the association list of word counts,
keeping first-insertion order (a deterministic stand-in for the
`unordered_map` iteration order, which is unspecified in C++; the counts
only feed the cosmetic group-name field). -/
def bumpCount (m : List (Str × ℕ)) (w : Str) : List (Str × ℕ) :=
  if m.any (fun p => p.1 == w) then
    m.map (fun p => if p.1 == w then (p.1, p.2 + 1) else p)
  else m ++ [(w, 1)]

/-- `GroupSuggester::Impl::FindCommonWords`: count, per document, the
distinct words longer than 3 characters, sort descending by count
(`std::sort`, tie order unspecified; modelled stably) and keep the first
`max_words` words. -/
def FindCommonWords (texts : List Str) (maxWords : ℕ) : List Str :=
  ((List.insertionSort (fun a b : Str × ℕ => b.2 ≤ a.2)
      (texts.foldl (fun m t => (docWords t).foldl bumpCount m) [])).take
    maxWords).map Prod.fst

/-- The greedy grouping pass of `SuggestByContent` over the not-yet-assigned
page indices, in order: the first unassigned index seeds a group and claims
every later unassigned page whose cosine similarity with the seed reaches
the threshold. -/
def greedyGroups (pages : List PageContent) (θ : ℚ) : List ℕ → List (List ℕ)
  | [] => []
  | i :: rest =>
    (i :: rest.filter
        (fun j => cosGeB (pages.getD i default).text (pages.getD j default).text θ)) ::
      greedyGroups pages θ
        (rest.filter
          (fun j => !(cosGeB (pages.getD i default).text (pages.getD j default).text θ)))
termination_by l => l.length
decreasing_by
  simp only [List.length_cons]
  exact Nat.lt_succ_of_le (List.length_filter_le _ _)

/-- The suggestion built by `SuggestByContent` for one greedy group of more
than one page: ids are the group's indices, the name joins the top common
words with " & " (falling back to "Group N", numbered from the suggestions
kept so far), a fixed description, and the similarity threshold itself as
the score (cast double-to-float, modelled as the identity). -/
def mkContentSuggestion (pages : List PageContent) (θ : ℚ) (numSoFar : ℕ)
    (g : List ℕ) : GroupSuggestion :=
  { group_name :=
      if FindCommonWords (g.map (fun idx => (pages.getD idx default).text)) 3 = [] then
        "Group ".data ++ (Nat.repr (numSoFar + 1)).data
      else
        List.intercalate " & ".data
          (FindCommonWords (g.map (fun idx => (pages.getD idx default).text)) 3),
    description := "Pages with similar content".data,
    page_ids := g,
    similarity_score := (θ : ℝ) }

/-- `GroupSuggester::SuggestByContent`: greedy single-pass clustering by
cosine similarity against each group's seed; groups of size 1 are
discarded. -/
def SuggestByContent (pages : List PageContent) (θ : ℚ) : List GroupSuggestion :=
  if pages = [] then []
  else
    (greedyGroups pages θ (List.range pages.length)).foldl
      (fun acc g =>
        if 1 < g.length then acc ++ [mkContentSuggestion pages θ acc.length g]
        else acc)
      []

/-- C9: for every non-empty page batch and every similarity_threshold, each
GroupSuggestion returned by SuggestByContent has similarity_score equal to
the similarity_threshold argument itself (cast to float), independent of the
actual pairwise cosine similarities among the group's members. -/
theorem C9_score_is_threshold (pages : List PageContent) (θ : ℚ)
    (h : pages ≠ []) :
    (SuggestByContent pages θ).Forall
      (fun g => g.similarity_score = (θ : ℝ)) := by
  unfold SuggestByContent
  rw [if_neg h, List.forall_iff_forall_mem]
  have key : ∀ (gs : List (List ℕ)) (acc : List GroupSuggestion),
      (∀ g ∈ acc, g.similarity_score = (θ : ℝ)) →
      ∀ g ∈ gs.foldl
          (fun acc g =>
            if 1 < g.length then acc ++ [mkContentSuggestion pages θ acc.length g]
            else acc)
          acc,
        g.similarity_score = (θ : ℝ) := by
    intro gs
    induction gs with
    | nil => intro acc hacc g hg; exact hacc g hg
    | cons hd tl ih =>
        intro acc hacc g hg
        rw [List.foldl_cons] at hg
        refine ih _ ?_ g hg
        intro q hq
        by_cases hc : 1 < hd.length
        · rw [if_pos hc] at hq
          rcases List.mem_append.mp hq with h1 | h1
          · exact hacc q h1
          · rw [List.mem_singleton] at h1
            rw [h1]
            rfl
        · rw [if_neg hc] at hq
          exact hacc q hq
  exact key _ [] (fun g hg => absurd hg (List.not_mem_nil g))

/-- Witness for C9 at a concrete two-page batch. -/
theorem C9_witness :
    ([⟨"cats cats cats".data, [], [], []⟩,
        ⟨"cats cats cats".data, [], [], []⟩] : List PageContent) ≠ [] ∧
    (SuggestByContent
        [⟨"cats cats cats".data, [], [], []⟩,
          ⟨"cats cats cats".data, [], [], []⟩] (1 / 2)).Forall
      (fun g => g.similarity_score = (((1 : ℚ) / 2 : ℚ) : ℝ)) :=
  ⟨List.cons_ne_nil _ _,
    C9_score_is_threshold
      [⟨"cats cats cats".data, [], [], []⟩, ⟨"cats cats cats".data, [], [], []⟩]
      (1 / 2) (List.cons_ne_nil _ _)⟩

/-- First document of the spec's two-document example batch. -/
def catsText : Str := "Cats are great pets. Cats love to sleep.".data

/-- Second document of the spec's two-document example batch. -/
def dogsText : Str := "Dogs are great pets. Dogs love to play.".data

/-- Squared magnitude of the cats document over the shared term union. -/
theorem catsMagSq :
    magnitudeSqOver (uniqueTerms (Tokenize catsText) (Tokenize dogsText))
      (Tokenize catsText) = 2 / 9 := by
  unfold magnitudeSqOver CalculateTermFrequency
  simp only [pow_two]
  rw [sum_div_eval (uniqueTerms (Tokenize catsText) (Tokenize dogsText))
    (fun w => (Tokenize catsText).count w) (fun w => (Tokenize catsText).count w)
    ((Tokenize catsText).length : ℚ) ((Tokenize catsText).length : ℚ)]
  have h1 : ((uniqueTerms (Tokenize catsText) (Tokenize dogsText)).map
      (fun w => (Tokenize catsText).count w * (Tokenize catsText).count w)).sum = 8 := by
    decide
  have h2 : (Tokenize catsText).length = 6 := by decide
  rw [h1, h2]
  norm_num

/-- Squared magnitude of the dogs document over the shared term union. -/
theorem dogsMagSq :
    magnitudeSqOver (uniqueTerms (Tokenize catsText) (Tokenize dogsText))
      (Tokenize dogsText) = 2 / 9 := by
  unfold magnitudeSqOver CalculateTermFrequency
  simp only [pow_two]
  rw [sum_div_eval (uniqueTerms (Tokenize catsText) (Tokenize dogsText))
    (fun w => (Tokenize dogsText).count w) (fun w => (Tokenize dogsText).count w)
    ((Tokenize dogsText).length : ℚ) ((Tokenize dogsText).length : ℚ)]
  have h1 : ((uniqueTerms (Tokenize catsText) (Tokenize dogsText)).map
      (fun w => (Tokenize dogsText).count w * (Tokenize dogsText).count w)).sum = 8 := by
    decide
  have h2 : (Tokenize dogsText).length = 6 := by decide
  rw [h1, h2]
  norm_num

/-- Dot product of the two example documents' term-frequency vectors. -/
theorem catsDogsDot : dotProduct (Tokenize catsText) (Tokenize dogsText) = 1 / 12 := by
  unfold dotProduct CalculateTermFrequency
  rw [sum_div_eval (uniqueTerms (Tokenize catsText) (Tokenize dogsText))
    (fun w => (Tokenize catsText).count w) (fun w => (Tokenize dogsText).count w)
    ((Tokenize catsText).length : ℚ) ((Tokenize dogsText).length : ℚ)]
  have h1 : ((uniqueTerms (Tokenize catsText) (Tokenize dogsText)).map
      (fun w => (Tokenize catsText).count w * (Tokenize dogsText).count w)).sum = 3 := by
    decide
  have h2 : (Tokenize catsText).length = 6 := by decide
  have h3 : (Tokenize dogsText).length = 6 := by decide
  rw [h1, h2, h3]
  norm_num

/-- Squared cosine similarity of the two example documents
(0.375 squared). -/
theorem catsDogsCosSq : cosineSimSq catsText dogsText = 9 / 64 := by
  unfold cosineSimSq
  rw [if_neg (by decide)]
  rw [catsMagSq, dogsMagSq, catsDogsDot]
  rw [if_neg (by norm_num)]
  norm_num

/-- The example documents pass the 0.3 cosine threshold. -/
theorem catsDogsCosGe : cosGeB catsText dogsText (3 / 10) = true := by
  unfold cosGeB
  have h : decide (((3 : ℚ) / 10) ^ 2 ≤ cosineSimSq catsText dogsText) = true := by
    rw [decide_eq_true_eq, catsDogsCosSq]
    norm_num
  rw [h, Bool.or_true]

/-- Greedy grouping of a two-element index worklist whose documents pass
the threshold: one group holding both indices. -/
theorem greedyGroups_pair (pages : List PageContent) (θ : ℚ) (i j : ℕ)
    (h : cosGeB (pages.getD i default).text (pages.getD j default).text θ = true) :
    greedyGroups pages θ [i, j] = [[i, j]] := by
  have h2 : cosGeB ((pages[i]?).getD default).text ((pages[j]?).getD default).text θ = true := by
    simpa using h
  simp [greedyGroups, h2]

/-- SuggestByContent over a two-page batch whose texts pass the threshold:
exactly one suggestion, containing both page ids. -/
theorem suggestByContent_pair (p0 p1 : PageContent) (θ : ℚ)
    (h : cosGeB p0.text p1.text θ = true) :
    (SuggestByContent [p0, p1] θ).map (fun g => g.page_ids) = [[0, 1]] := by
  unfold SuggestByContent
  rw [if_neg (List.cons_ne_nil _ _)]
  have h2 : greedyGroups [p0, p1] θ (List.range (List.length [p0, p1])) = [[0, 1]] := by
    rw [show List.range (List.length [p0, p1]) = [0, 1] from rfl]
    exact greedyGroups_pair [p0, p1] θ 0 1 (by exact h)
  rw [h2]
  simp only [List.foldl_cons, List.foldl_nil]
  rw [if_pos (by decide)]
  simp only [List.nil_append, List.map_cons, List.map_nil]
  rfl

/-- C1: for the two-document batch [cats text, dogs text], SuggestByContent
with similarity_threshold 0.3 returns exactly one GroupSuggestion, and its
member id list contains exactly the ids of both documents (0 and 1). -/
theorem C1_example_single_group :
    (SuggestByContent [⟨catsText, [], [], []⟩, ⟨dogsText, [], [], []⟩]
        (3 / 10)).map (fun g => g.page_ids) = [[0, 1]] ∧
    (SuggestByContent [⟨catsText, [], [], []⟩, ⟨dogsText, [], [], []⟩]
        (3 / 10)).length = 1 := by
  have hmap := suggestByContent_pair ⟨catsText, [], [], []⟩ ⟨dogsText, [], [], []⟩
    (3 / 10) (by exact catsDogsCosGe)
  refine ⟨hmap, ?_⟩
  have hlen := congrArg List.length hmap
  rw [List.length_map] at hlen
  exact hlen

/-- `SimilarityCalculator::CalculateJaccardSimilarity`: 1 when both keyword
lists are empty, 0 when exactly one is, otherwise intersection size over
union size of the two keyword sets (with the code's union-size-zero
guard). -/
def CalculateJaccardSimilarity (ka kb : List Str) : ℚ :=
  if ka = [] ∧ kb = [] then 1
  else if ka = [] ∨ kb = [] then 0
  else
    if ka.dedup.length + kb.dedup.length -
        (ka.dedup.filter (fun x => kb.contains x)).length = 0 then 0
    else
      ((ka.dedup.filter (fun x => kb.contains x)).length : ℚ) /
        ((ka.dedup.length + kb.dedup.length -
          (ka.dedup.filter (fun x => kb.contains x)).length : ℕ) : ℚ)

/-- `Impl::CalculateNGrams`: contiguous token n-grams joined with single
spaces; fewer than n tokens yield the token list itself. -/
def CalculateNGrams (text : Str) (n : ℕ) : List Str :=
  if (Tokenize text).length < n then Tokenize text
  else
    (List.range ((Tokenize text).length - n + 1)).map
      (fun i => List.intercalate [' '] (((Tokenize text).drop i).take n))

/-- `SimilarityCalculator::CalculateNGramSimilarity`: Jaccard overlap of
the two n-gram sets; 1 when both are empty, 0 when exactly one is (the
remaining case has a nonempty union, so the code divides directly). -/
def CalculateNGramSimilarity (a b : Str) (n : ℕ) : ℚ :=
  if CalculateNGrams a n = [] ∧ CalculateNGrams b n = [] then 1
  else if CalculateNGrams a n = [] ∨ CalculateNGrams b n = [] then 0
  else
    (((CalculateNGrams a n).dedup.filter
        (fun x => (CalculateNGrams b n).contains x)).length : ℚ) /
      (((CalculateNGrams a n).dedup.length + (CalculateNGrams b n).dedup.length -
        ((CalculateNGrams a n).dedup.filter
          (fun x => (CalculateNGrams b n).contains x)).length : ℕ) : ℚ)

/-- `SimilarityCalculator::CalculateCombinedSimilarity`:
0.5 cosine + 0.3 bigram + 0.2 trigram. -/
noncomputable def CalculateCombinedSimilarity (a b : Str) : ℝ :=
  1 / 2 * CalculateCosineSimilarity a b +
    3 / 10 * (CalculateNGramSimilarity a b 2 : ℝ) +
    1 / 5 * (CalculateNGramSimilarity a b 3 : ℝ)

/-- `CrossRecommendation`: ordered pair of page ids with a relevance score,
the shared keywords, and a reason string. -/
structure CrossRecommendation where
  source_id : ℕ
  target_id : ℕ
  relevance_score : ℝ
  common_topics : List Str
  reason : Str

/-- Pairwise relevance in `GenerateCrossRecommendations`:
0.6 × combined text similarity + 0.4 × keyword Jaccard similarity. -/
noncomputable def pairRelevance (pages : List PageContent) (i j : ℕ) : ℝ :=
  3 / 5 * CalculateCombinedSimilarity (pages.getD i default).text
      (pages.getD j default).text +
    2 / 5 * (CalculateJaccardSimilarity (pages.getD i default).keywords
      (pages.getD j default).keywords : ℝ)

/-- The shared-keyword list of a recommendation: every keyword of the first
list once per matching occurrence in the second (duplicates per matching
pair, exactly as the nested loops of the code produce them). -/
def commonTopics (ka kb : List Str) : List Str :=
  ka.flatMap (fun a => (kb.filter (fun b => b == a)).map (fun _ => a))

open Classical in
/-- Reason text of a recommendation, as generated by the code. -/
noncomputable def recReason (topics : List Str) (relevance : ℝ) : Str :=
  if topics ≠ [] then
    "Both pages discuss: ".data ++ topics.headD [] ++
      (if 1 < topics.length then
        " and ".data ++ (Nat.repr (topics.length - 1)).data ++ " more topics".data
      else [])
  else if (7 / 10 : ℝ) < relevance then "Highly similar content".data
  else "Related content".data

/-- The nested loop ranges of the pairwise passes: all pairs (i, j) with
i < j < n, in lexicographic order. -/
def allPairs (n : ℕ) : List (ℕ × ℕ) :=
  (List.range n).flatMap
    (fun i => ((List.range n).filter (fun j => decide (i < j))).map (fun j => (i, j)))

/-- One recommendation record of `GenerateCrossRecommendations`. -/
noncomputable def mkCrossRec (pages : List PageContent) (i j : ℕ) :
    CrossRecommendation :=
  { source_id := i
    target_id := j
    relevance_score := pairRelevance pages i j
    common_topics := commonTopics (pages.getD i default).keywords
      (pages.getD j default).keywords
    reason := recReason
      (commonTopics (pages.getD i default).keywords (pages.getD j default).keywords)
      (pairRelevance pages i j) }

open Classical in
/-- `GroupSuggester::GenerateCrossRecommendations`: batches of fewer than
two pages yield nothing; otherwise one candidate per pair i < j, kept when
its relevance reaches `min_relevance`, sorted by relevance descending
(`std::sort`; tie order unspecified, modelled stably). -/
noncomputable def GenerateCrossRecommendations (pages : List PageContent)
    (θ : ℝ) : List CrossRecommendation :=
  if pages.length < 2 then []
  else
    List.insertionSort (fun a b => b.relevance_score ≤ a.relevance_score)
      ((allPairs pages.length).filterMap
        (fun p =>
          if θ ≤ pairRelevance pages p.1 p.2 then some (mkCrossRec pages p.1 p.2)
          else none))

/-- Membership in `allPairs`. -/
theorem allPairs_mem (n : ℕ) (p : ℕ × ℕ) :
    p ∈ allPairs n ↔ p.1 < p.2 ∧ p.2 < n := by
  obtain ⟨i, j⟩ := p
  unfold allPairs
  simp only [List.mem_flatMap, List.mem_map, List.mem_filter, List.mem_range,
    decide_eq_true_eq, Prod.mk.injEq]
  constructor
  · rintro ⟨a, ha, b, ⟨hb, hab⟩, rfl, rfl⟩
    exact ⟨hab, hb⟩
  · rintro ⟨hij, hj⟩
    exact ⟨i, lt_trans hij hj, j, ⟨hj, hij⟩, rfl, rfl⟩

/-- The pair list contains no duplicates. -/
theorem allPairs_nodup (n : ℕ) : (allPairs n).Nodup := by
  unfold allPairs
  rw [List.nodup_flatMap]
  constructor
  · intro i _
    exact (List.Nodup.filter _ (List.nodup_range n)).map
      (fun a b hab => by simpa using congrArg Prod.snd hab)
  · apply List.Pairwise.imp ?_ (List.pairwise_lt_range n)
    intro i i' hii
    intro q hq hq2
    rw [List.mem_map] at hq hq2
    obtain ⟨b, _, rfl⟩ := hq
    obtain ⟨b2, _, h2⟩ := hq2
    have := congrArg Prod.fst h2
    simp only at this
    omega

open Classical in
/-- C6: for every page batch and min_relevance, GenerateCrossRecommendations
emits exactly one recommendation for each unordered pair (i, j) with i < j
whose relevance reaches min_relevance, with source id i and target id j and
never a reversed duplicate, and emits nothing for pairs below
min_relevance. -/
theorem C6_cross_recommendation_pairs (pages : List PageContent) (θ : ℝ) :
    ((GenerateCrossRecommendations pages θ).map
        (fun r => (r.source_id, r.target_id))).Nodup ∧
    ∀ i j : ℕ,
      ((i, j) ∈ (GenerateCrossRecommendations pages θ).map
          (fun r => (r.source_id, r.target_id))) ↔
        (i < j ∧ j < pages.length ∧ θ ≤ pairRelevance pages i j) := by
  unfold GenerateCrossRecommendations
  by_cases hlen : pages.length < 2
  · rw [if_pos hlen]
    refine ⟨by simp, ?_⟩
    intro i j
    simp only [List.map_nil, List.not_mem_nil, false_iff]
    rintro ⟨hij, hj, _⟩
    omega
  · rw [if_neg hlen]
    have hperm :
        (List.insertionSort
            (fun a b : CrossRecommendation => b.relevance_score ≤ a.relevance_score)
            ((allPairs pages.length).filterMap
              (fun p =>
                if θ ≤ pairRelevance pages p.1 p.2 then some (mkCrossRec pages p.1 p.2)
                else none))).Perm
          ((allPairs pages.length).filterMap
            (fun p =>
              if θ ≤ pairRelevance pages p.1 p.2 then some (mkCrossRec pages p.1 p.2)
              else none)) :=
      List.perm_insertionSort _ _
    have hmapperm := hperm.map (fun r : CrossRecommendation => (r.source_id, r.target_id))
    have hbase :
        (((allPairs pages.length).filterMap
            (fun p =>
              if θ ≤ pairRelevance pages p.1 p.2 then some (mkCrossRec pages p.1 p.2)
              else none)).map (fun r => (r.source_id, r.target_id))) =
          (allPairs pages.length).filterMap
            (fun p => if θ ≤ pairRelevance pages p.1 p.2 then some p else none) := by
      rw [List.map_filterMap]
      apply List.filterMap_congr
      intro p _
      by_cases h : θ ≤ pairRelevance pages p.1 p.2
      · rw [if_pos h, if_pos h]
        rfl
      · rw [if_neg h, if_neg h]
        rfl
    have hnodupbase :
        ((allPairs pages.length).filterMap
          (fun p => if θ ≤ pairRelevance pages p.1 p.2 then some p else none)).Nodup := by
      refine List.Nodup.filterMap ?_ (allPairs_nodup _)
      intro a a' b hb hb'
      have ha : a = b := by
        by_cases h : θ ≤ pairRelevance pages a.1 a.2
        · rw [if_pos h] at hb
          exact Option.mem_some_iff.mp hb
        · rw [if_neg h] at hb
          exact absurd hb (Option.not_mem_none b)
      have ha2 : a' = b := by
        by_cases h : θ ≤ pairRelevance pages a'.1 a'.2
        · rw [if_pos h] at hb'
          exact Option.mem_some_iff.mp hb'
        · rw [if_neg h] at hb'
          exact absurd hb' (Option.not_mem_none b)
      rw [ha, ha2]
    constructor
    · rw [hmapperm.nodup_iff, hbase]
      exact hnodupbase
    · intro i j
      rw [hmapperm.mem_iff, hbase, List.mem_filterMap]
      constructor
      · rintro ⟨a, ha, hfa⟩
        by_cases h : θ ≤ pairRelevance pages a.1 a.2
        · rw [if_pos h] at hfa
          have haij : a = (i, j) := Option.some_inj.mp hfa
          rw [haij] at ha h
          have hm := (allPairs_mem pages.length (i, j)).mp ha
          exact ⟨hm.1, hm.2, h⟩
        · rw [if_neg h] at hfa
          exact absurd hfa (by simp)
      · rintro ⟨hij, hjn, hrel⟩
        refine ⟨(i, j), (allPairs_mem pages.length (i, j)).mpr ⟨hij, hjn⟩, ?_⟩
        rw [if_pos hrel]

/-- The pairwise similarity matrix built by `DetectClusters`, as a
function: unit diagonal, and for distinct indices the combined similarity
computed once per unordered pair (at `(min i j, max i j)`) and stored into
both entries. -/
noncomputable def simMatrix (pages : List PageContent) (i j : ℕ) : ℝ :=
  if i = j then 1
  else if i < j then
    CalculateCombinedSimilarity (pages.getD i default).text (pages.getD j default).text
  else
    CalculateCombinedSimilarity (pages.getD j default).text (pages.getD i default).text

/-- Average-linkage similarity between two clusters: mean of the matrix
entries over all member pairs (the accumulated value, 0, when a cluster is
empty, matching the code's count guard). -/
noncomputable def avgLinkage (M : ℕ → ℕ → ℝ) (ci cj : List ℕ) : ℝ :=
  if 0 < ci.length * cj.length then
    (ci.flatMap (fun a => cj.map (fun b => M a b))).sum /
      ((ci.length * cj.length : ℕ) : ℝ)
  else (ci.flatMap (fun a => cj.map (fun b => M a b))).sum

/-- One comparison step of the best-pair search of `DetectClusters`. -/
noncomputable def selBest (M : ℕ → ℕ → ℝ) (cs : List (List ℕ))
    (best : ℝ × ℕ × ℕ) (p : ℕ × ℕ) : ℝ × ℕ × ℕ :=
  if best.1 < avgLinkage M (cs.getD p.1 []) (cs.getD p.2 []) then
    (avgLinkage M (cs.getD p.1 []) (cs.getD p.2 []), p.1, p.2)
  else best

open Classical in
/-- The pair of cluster positions with the highest average-linkage
similarity, scanning pairs in lexicographic order starting from
`max_sim = -1`, `merge_i = 0`, `merge_j = 1`. -/
noncomputable def selectPair (M : ℕ → ℕ → ℝ) (cs : List (List ℕ)) : ℕ × ℕ :=
  ((allPairs cs.length).foldl (selBest M cs) (-1, 0, 1)).2

/-- One merge of the agglomerative loop: append the second cluster to the
first and erase the second. -/
noncomputable def mergeStep (M : ℕ → ℕ → ℝ) (cs : List (List ℕ)) :
    List (List ℕ) :=
  (cs.set (selectPair M cs).1
    (cs.getD (selectPair M cs).1 [] ++ cs.getD (selectPair M cs).2 [])).eraseIdx
    (selectPair M cs).2

/-- The agglomerative while-loop of `DetectClusters` (fuel-indexed; each
iteration removes one cluster, so `pages.length` fuel is never exhausted
before the loop condition fails). -/
noncomputable def clusterLoop (M : ℕ → ℕ → ℝ) (k : ℕ) :
    ℕ → List (List ℕ) → List (List ℕ)
  | 0, cs => cs
  | fuel + 1, cs =>
    if k < cs.length ∧ 1 < cs.length then clusterLoop M k fuel (mergeStep M cs)
    else cs

/-- Upper-case the first character, as `GenerateGroupName` does. -/
def capitalizeFirst : Str → Str
  | [] => []
  | c :: t => c.toUpper :: t

/-- `GroupSuggester::GenerateGroupName`: up to two common words of the
members' "title text" strings joined by a space, first letter upper-cased,
with fallbacks for an empty member list or no common words. -/
def GenerateGroupName (pages : List PageContent) : Str :=
  if pages = [] then "Empty Group".data
  else
    if FindCommonWords (pages.map (fun p => p.title ++ [' '] ++ p.text)) 2 = [] then
      "Unnamed Group".data
    else
      capitalizeFirst
        (List.intercalate [' ']
          (FindCommonWords (pages.map (fun p => p.title ++ [' '] ++ p.text)) 2))

/-- `GroupSuggester::GenerateGroupDescription`: member count plus the
common keywords, when any. -/
def GenerateGroupDescription (pages : List PageContent) : Str :=
  if pages = [] then "No pages in this group".data
  else
    "A collection of ".data ++ (Nat.repr pages.length).data ++ " related pages".data ++
      (if pages.flatMap (fun p => p.keywords) = [] then []
       else
         if FindCommonWords (pages.flatMap (fun p => p.keywords)) 3 = [] then []
         else
           " about ".data ++
             List.intercalate ", ".data
               (FindCommonWords (pages.flatMap (fun p => p.keywords)) 3))

/-- Mean within-cluster similarity over the pairs of members with
`pi < pj` (by index value), or 0.5 when there are fewer than two distinct
pairs. -/
noncomputable def clusterScore (M : ℕ → ℕ → ℝ) (c : List ℕ) : ℝ :=
  if 0 < (c.flatMap (fun a => (c.filter (fun b => decide (a < b))).map
      (fun b => M a b))).length then
    (c.flatMap (fun a => (c.filter (fun b => decide (a < b))).map
        (fun b => M a b))).sum /
      (((c.flatMap (fun a => (c.filter (fun b => decide (a < b))).map
        (fun b => M a b))).length : ℕ) : ℝ)
  else 1 / 2

/-- The suggestion built by `DetectClusters` for one surviving cluster. -/
noncomputable def mkClusterSuggestion (pages : List PageContent)
    (M : ℕ → ℕ → ℝ) (c : List ℕ) : GroupSuggestion :=
  { group_name := GenerateGroupName (c.map (fun idx => pages.getD idx default))
    description := GenerateGroupDescription (c.map (fun idx => pages.getD idx default))
    page_ids := c
    similarity_score := clusterScore M c }

/-- The composite quality score of `RankSuggestions`: size bonus, weighted
similarity score, name-quality bonuses, and description bonus. -/
noncomputable def qualityScore (g : GroupSuggestion) : ℝ :=
  (if 2 ≤ g.page_ids.length ∧ g.page_ids.length ≤ 5 then (3 : ℝ) / 10
   else if 5 < g.page_ids.length ∧ g.page_ids.length ≤ 10 then (1 : ℝ) / 5
   else if 10 < g.page_ids.length then (1 : ℝ) / 10 else 0) +
  g.similarity_score * (2 / 5) +
  (if 5 < g.group_name.length then (3 : ℝ) / 20 else 0) +
  (if g.group_name.contains ' ' then (1 : ℝ) / 10 else 0) +
  (if g.description ≠ [] then (1 : ℝ) / 20 else 0)

open Classical in
/-- `GroupSuggester::RankSuggestions`: score every suggestion, sort the
(score, position) pairs by score descending (`std::sort`; tie order
unspecified, modelled stably) and reorder the suggestions accordingly. -/
noncomputable def RankSuggestions (suggestions : List GroupSuggestion) :
    List GroupSuggestion :=
  if suggestions = [] then suggestions
  else
    (List.insertionSort (fun a b : ℝ × ℕ => b.1 ≤ a.1)
        ((List.range suggestions.length).map
          (fun i => (qualityScore (suggestions.getD i default), i)))).map
      (fun p => suggestions.getD p.2 default)

/-- `GroupSuggester::DetectClusters`: auto-select the target cluster count
when 0, build the similarity matrix, run the agglomerative loop from
singleton clusters, drop singleton results, build a suggestion per
surviving cluster, and rank. -/
noncomputable def DetectClusters (pages : List PageContent)
    (numClusters : ℕ) : List GroupSuggestion :=
  if pages = [] then []
  else
    RankSuggestions
      (((clusterLoop (simMatrix pages)
            (if numClusters = 0 then min (max 2 (pages.length / 3)) 10
             else numClusters)
            pages.length
            ((List.range pages.length).map (fun i => [i]))).filter
          (fun c => 2 ≤ c.length)).map
        (fun c => mkClusterSuggestion pages (simMatrix pages) c))

/-- Pulling one cluster to the front of the flattened members is a
permutation. -/
theorem flatten_getD_eraseIdx (L : List (List ℕ)) (j : ℕ) (hj : j < L.length) :
    (L.getD j [] ++ (L.eraseIdx j).flatten).Perm L.flatten := by
  induction L generalizing j with
  | nil => simp at hj
  | cons c t ih =>
      cases j with
      | zero =>
          simp only [List.getD_eq_getElem?_getD, List.getElem?_cons_zero,
            Option.getD_some, List.eraseIdx_cons_zero, List.flatten_cons]
          exact List.Perm.refl _
      | succ j =>
          simp only [List.getD_eq_getElem?_getD, List.getElem?_cons_succ,
            List.eraseIdx_cons_succ, List.flatten_cons]
          have hj2 : j < t.length := by simpa using hj
          refine (List.perm_append_comm_assoc _ _ _).trans
            (List.Perm.append_left c ?_)
          simpa [List.getD_eq_getElem?_getD] using ih j hj2

/-- Replacing one cluster rearranges the flattened members into the new
cluster followed by the rest. -/
theorem flatten_set_perm (L : List (List ℕ)) (i : ℕ) (x : List ℕ)
    (hi : i < L.length) :
    ((L.set i x).flatten).Perm (x ++ (L.eraseIdx i).flatten) := by
  induction L generalizing i with
  | nil => simp at hi
  | cons c t ih =>
      cases i with
      | zero =>
          simp only [List.set_cons_zero, List.flatten_cons, List.eraseIdx_cons_zero]
          exact List.Perm.refl _
      | succ i =>
          simp only [List.set_cons_succ, List.flatten_cons, List.eraseIdx_cons_succ]
          have hi2 : i < t.length := by simpa using hi
          exact (List.Perm.append_left c (ih i hi2)).trans
            (List.perm_append_comm_assoc c x _)

/-- The selected merge pair is always two distinct positions inside the
cluster list (given at least two clusters). -/
theorem selectPair_valid (M : ℕ → ℕ → ℝ) (cs : List (List ℕ))
    (h2 : 1 < cs.length) :
    (selectPair M cs).1 < (selectPair M cs).2 ∧
      (selectPair M cs).2 < cs.length := by
  unfold selectPair
  have key : ∀ (l : List (ℕ × ℕ)) (acc : ℝ × ℕ × ℕ),
      (∀ p ∈ l, p.1 < p.2 ∧ p.2 < cs.length) →
      acc.2.1 < acc.2.2 ∧ acc.2.2 < cs.length →
      ((l.foldl (selBest M cs) acc).2.1 < (l.foldl (selBest M cs) acc).2.2 ∧
        (l.foldl (selBest M cs) acc).2.2 < cs.length) := by
    intro l
    induction l with
    | nil => intro acc _ hacc; exact hacc
    | cons p t ih =>
        intro acc hl hacc
        rw [List.foldl_cons]
        refine ih _ (fun q hq => hl q (List.mem_cons_of_mem p hq)) ?_
        unfold selBest
        split
        · exact hl p (List.mem_cons_self p t)
        · exact hacc
  refine key (allPairs cs.length) (-1, 0, 1) ?_ ?_
  · intro p hp
    exact (allPairs_mem cs.length p).mp hp
  · exact ⟨Nat.zero_lt_one, h2⟩

/-- One merge step permutes the flattened members. -/
theorem mergeStep_flatten_perm (M : ℕ → ℕ → ℝ) (cs : List (List ℕ))
    (h2 : 1 < cs.length) : ((mergeStep M cs).flatten).Perm cs.flatten := by
  obtain ⟨hij, hjlen⟩ := selectPair_valid M cs h2
  have hilen : (selectPair M cs).1 < cs.length := lt_trans hij hjlen
  unfold mergeStep
  have hjlen2 : (selectPair M cs).2 <
      (cs.set (selectPair M cs).1
        (cs.getD (selectPair M cs).1 [] ++ cs.getD (selectPair M cs).2 [])).length := by
    rw [List.length_set]
    exact hjlen
  have h1 := flatten_getD_eraseIdx
    (cs.set (selectPair M cs).1
      (cs.getD (selectPair M cs).1 [] ++ cs.getD (selectPair M cs).2 []))
    (selectPair M cs).2 hjlen2
  have hgd : (cs.set (selectPair M cs).1
      (cs.getD (selectPair M cs).1 [] ++ cs.getD (selectPair M cs).2 [])).getD
        (selectPair M cs).2 [] = cs.getD (selectPair M cs).2 [] := by
    simp [List.getD_eq_getElem?_getD, List.getElem?_set_ne (ne_of_lt hij)]
  rw [hgd] at h1
  have h2set := flatten_set_perm cs (selectPair M cs).1
    (cs.getD (selectPair M cs).1 [] ++ cs.getD (selectPair M cs).2 []) hilen
  have h3 := flatten_getD_eraseIdx cs (selectPair M cs).1 hilen
  rw [← List.perm_append_left_iff (cs.getD (selectPair M cs).2 [])]
  refine h1.trans (h2set.trans (List.Perm.trans ?_
    (List.Perm.append_left (cs.getD (selectPair M cs).2 []) h3)))
  rw [List.append_assoc]
  exact List.perm_append_comm_assoc _ _ _

/-- The agglomerative loop permutes the flattened members. -/
theorem clusterLoop_flatten_perm (M : ℕ → ℕ → ℝ) (k : ℕ) :
    ∀ (fuel : ℕ) (cs : List (List ℕ)),
      ((clusterLoop M k fuel cs).flatten).Perm cs.flatten := by
  intro fuel
  induction fuel with
  | zero => intro cs; exact List.Perm.refl _
  | succ f ih =>
      intro cs
      rw [clusterLoop]
      split
      · rename_i hcond
        exact (ih (mergeStep M cs)).trans (mergeStep_flatten_perm M cs hcond.2)
      · exact List.Perm.refl _

/-- Flattening singleton clusters recovers the underlying list. -/
theorem flatten_map_singleton (l : List ℕ) :
    (l.map (fun i => [i])).flatten = l := by
  induction l with
  | nil => rfl
  | cons a t ih => simp [List.flatten_cons, ih]

/-- Ranking preserves any property that all suggestions (and the default
record) satisfy. -/
theorem rankSuggestions_forall (P : GroupSuggestion → Prop)
    (l : List GroupSuggestion) (h : ∀ g ∈ l, P g)
    (hd : P default) : ∀ g ∈ RankSuggestions l, P g := by
  intro g hg
  unfold RankSuggestions at hg
  split at hg
  · exact h g hg
  · rw [List.mem_map] at hg
    obtain ⟨p, _, rfl⟩ := hg
    by_cases hp : p.2 < l.length
    · rw [List.getD_eq_getElem l default hp]
      exact h _ (List.getElem_mem hp)
    · rw [List.getD_eq_default l default (le_of_not_lt hp)]
      exact hd

/-- C2: for every page batch and every target cluster count, DetectClusters
returns no GroupSuggestion containing duplicate member ids, and the
similarity matrix it builds is symmetric with unit diagonal. -/
theorem C2_cluster_invariants (pages : List PageContent) (k : ℕ) :
    (DetectClusters pages k).Forall (fun g => g.page_ids.Nodup) ∧
    ∀ i j : Fin pages.length,
      simMatrix pages i j = simMatrix pages j i ∧ simMatrix pages i i = 1 := by
  constructor
  · rw [List.forall_iff_forall_mem]
    unfold DetectClusters
    split
    · intro g hg
      exact absurd hg (List.not_mem_nil g)
    · apply rankSuggestions_forall
      · intro g hg
        rw [List.mem_map] at hg
        obtain ⟨c, hc, rfl⟩ := hg
        have hcmem := List.mem_of_mem_filter hc
        have hflat : ((clusterLoop (simMatrix pages)
            (if k = 0 then min (max 2 (pages.length / 3)) 10 else k)
            pages.length
            ((List.range pages.length).map (fun i => [i]))).flatten).Nodup := by
          have hperm := clusterLoop_flatten_perm (simMatrix pages)
            (if k = 0 then min (max 2 (pages.length / 3)) 10 else k)
            pages.length ((List.range pages.length).map (fun i => [i]))
          rw [hperm.nodup_iff, flatten_map_singleton]
          exact List.nodup_range pages.length
        exact (List.sublist_flatten_of_mem hcmem).nodup hflat
      · exact List.nodup_nil
  · intro i j
    constructor
    · unfold simMatrix
      rcases lt_trichotomy (i : ℕ) (j : ℕ) with h | h | h
      · rw [if_neg (by omega), if_pos h, if_neg (by omega), if_neg (by omega)]
      · rw [if_pos h, if_pos h.symm]
      · rw [if_neg (by omega), if_neg (by omega), if_neg (by omega), if_pos h]
    · unfold simMatrix
      rw [if_pos rfl]

open Classical in
/-- `SimilarityCalculator::FindSimilarDocuments`: cosine similarity of the
query against every corpus member, keeping scores at or above the
threshold, sorted descending by score.  The code sorts with `std::sort`,
whose order on equal scores is unspecified by the C++ standard; the stable
`insertionSort` below is one admissible behaviour, so the spec's claim that
ties keep the original corpus order is a property of this particular model
and not of the source, and no theorem about tie order is stated. -/
noncomputable def FindSimilarDocuments (query : Str) (corpus : List Str)
    (threshold : ℝ) : List (ℕ × ℝ) :=
  List.insertionSort (fun a b => b.2 ≤ a.2)
    (((List.range corpus.length).map
        (fun i => (i, CalculateCosineSimilarity query (corpus.getD i [])))).filter
      (fun p => decide (threshold ≤ p.2)))
